import Mathlib

/-!
Shallow embedding of the pacfetch core (src/util.rs, src/pacman.rs):
the ANSI escape stripper, the sync-progress tracker, the line
assemblers of the three PTY driving loops, the database cache
freshness check and selective copy, and the net-upgrade-size
normalization.  Strings are modelled as `List Char` (Rust `str::chars`
iteration); file timestamps as integer seconds; the `f64` size
arithmetic as exact rationals.
-/

/-- Unicode White_Space property, as used by Rust `char::is_whitespace`
(`str::trim`, `str::split_whitespace`). -/
def rustIsWhitespace (c : Char) : Bool :=
  (('\u0009' ≤ c && c ≤ '\u000D') || c = ' ' || c = '\u0085' || c = ' '
    || c = ' ' || (' ' ≤ c && c ≤ ' ') || c = ' '
    || c = ' ' || c = ' ' || c = ' ' || c = '　')

/-- Rust `str::trim`: drop leading and trailing whitespace. -/
def rustTrim (l : List Char) : List Char :=
  ((l.dropWhile rustIsWhitespace).reverse.dropWhile rustIsWhitespace).reverse

/-- Helper for `splitWs`: `cur` is the reversed current token. -/
def splitWsAux : List Char → List Char → List (List Char)
  | cur, [] => if cur = [] then [] else [cur.reverse]
  | cur, c :: r =>
    if rustIsWhitespace c then
      if cur = [] then splitWsAux [] r else cur.reverse :: splitWsAux [] r
    else splitWsAux (c :: cur) r

/-- Rust `str::split_whitespace`: split on whitespace runs, no empty tokens. -/
def splitWs (l : List Char) : List (List Char) := splitWsAux [] l

/-- Rust `str::contains(&str)`: substring search. -/
def containsSub (hay needle : List Char) : Bool :=
  if needle.isPrefixOf hay then true
  else match hay with
    | [] => false
    | _ :: t => containsSub t needle

/-- Rust `str::strip_suffix('%')`: remove a single trailing `%` if present. -/
def stripPctSuffix (l : List Char) : Option (List Char) :=
  match l.reverse with
  | '%' :: r => some r.reverse
  | _ => none

/-- Rust `str::parse::<u8>()`: optional leading `+`, then one or more ASCII
digits, value at most 255; anything else (including a `-` sign) fails. -/
def parseU8 (l : List Char) : Option Nat :=
  let digits := match l with
    | '+' :: r => r
    | _ => l
  if digits = [] then none
  else if digits.all (fun c => '0' ≤ c && c ≤ '9') then
    let v := digits.foldl (fun a c => a * 10 + (c.toNat - '0'.toNat)) 0
    if v ≤ 255 then some v else none
  else none

/-- States of the `strip_ansi` scanner (src/util.rs, lines 49-88).  `text` is
the outer `while let` loop; `esc` is the `chars.peek()` dispatch after an ESC;
`csi` is the inner loop consuming an `ESC [` sequence; `osc` the inner loop
consuming an `ESC ]` sequence; `oscEsc` is the point inside the OSC loop where
an ESC was consumed and the next character is peeked for `\`. -/
inductive AnsiMode
  | text | esc | csi | osc | oscEsc
  deriving DecidableEq

/-- One-pass translation of `strip_ansi`'s loop nest (src/util.rs 49-88) as a
character-driven state machine; each `AnsiMode` names a position in the
original control flow. -/
def stripGo : AnsiMode → List Char → List Char
  | _, [] => []
  | .text, c :: r =>
    if c = '\x1b' then stripGo .esc r else c :: stripGo .text r
  | .esc, c :: r =>
    if c = '[' then stripGo .csi r
    else if c = ']' then stripGo .osc r
    else stripGo .text r
  | .csi, c :: r =>
    if '@' ≤ c ∧ c ≤ '~' then stripGo .text r else stripGo .csi r
  | .osc, c :: r =>
    if c = '\x07' then stripGo .text r
    else if c = '\x1b' then stripGo .oscEsc r
    else stripGo .osc r
  | .oscEsc, c :: r =>
    if c = '\\' then stripGo .text r
    else if c = '\x1b' then stripGo .esc r
    else c :: stripGo .text r

/-- `util::strip_ansi` (src/util.rs 49-88). -/
def strip_ansi (s : String) : String := String.mk (stripGo .text s.data)

/-- `DbSyncState` (src/pacman.rs 47-51); the `u8` payload is carried as `Nat`
(parsing via `parseU8` only ever stores values below 100 in `Syncing`). -/
inductive DbSyncState
  | Syncing (pct : Nat)
  | Complete
  deriving DecidableEq

/-- `SyncProgress` (src/pacman.rs 53-57). -/
structure SyncProgress where
  core : DbSyncState
  extra : DbSyncState
  multilib : DbSyncState
  deriving DecidableEq

/-- `SyncProgress::new` (src/pacman.rs 60-66). -/
def SyncProgress.new : SyncProgress :=
  ⟨.Syncing 0, .Syncing 0, .Syncing 0⟩

/-- `SyncProgress::format_state` (src/pacman.rs 77-82). -/
def SyncProgress.format_state : DbSyncState → String
  | .Syncing pct => toString pct ++ "%"
  | .Complete => "✓"

/-- `SyncProgress::format` (src/pacman.rs 68-75). -/
def SyncProgress.format (sp : SyncProgress) : String :=
  "core " ++ SyncProgress.format_state sp.core
    ++ " | extra " ++ SyncProgress.format_state sp.extra
    ++ " | multilib " ++ SyncProgress.format_state sp.multilib

/-- `SyncProgress::update_from_line` (src/pacman.rs 84-121), on the
char-list view of the line. -/
def SyncProgress.update_from_line (sp : SyncProgress) (line : List Char) :
    SyncProgress :=
  let clean := stripGo .text line
  let trimmed := rustTrim clean
  if containsSub trimmed "is up to date".data then
    if "core".data.isPrefixOf trimmed then { sp with core := .Complete }
    else if "extra".data.isPrefixOf trimmed then { sp with extra := .Complete }
    else if "multilib".data.isPrefixOf trimmed then
      { sp with multilib := .Complete }
    else sp
  else
    let parts := splitWs trimmed
    if 2 ≤ parts.length then
      let db_name := parts.headD []
      let last := parts.getLastD []
      match stripPctSuffix last with
      | some pct_str =>
        match parseU8 pct_str with
        | some pct =>
          let state := if 100 ≤ pct then DbSyncState.Complete
            else DbSyncState.Syncing pct
          if db_name = "core".data then { sp with core := state }
          else if db_name = "extra".data then { sp with extra := state }
          else if db_name = "multilib".data then { sp with multilib := state }
          else sp
        | none => sp
      | none => sp
    else sp

/-- `filter_upgrade_line` (src/pacman.rs 715-738). -/
def filter_upgrade_line (line : List Char) : Bool :=
  let clean := stripGo .text line
  let trimmed := rustTrim clean
  if trimmed = [] then false
  else if containsSub trimmed "Total Download Size:".data
      || containsSub trimmed "Total Installed Size:".data
      || containsSub trimmed "Net Upgrade Size:".data then false
  else if containsSub trimmed "resolving dependencies".data
      || containsSub trimmed "looking for conflicting packages".data
      || containsSub trimmed ":: Starting full system upgrade...".data then
    false
  else true

/-- `should_print` (src/pacman.rs 740-746). -/
def should_print (line : List Char) (filter : Bool) : Bool :=
  if filter then filter_upgrade_line line else true

/-- The prompt test of `run_pacman_pty` (src/pacman.rs 803-804): the partial
buffer ends with a yes/no cue, or contains a section marker and ends with a
colon-and-space cue. -/
def promptDetected (buf : List Char) : Bool :=
  "[Y/n] ".data.isSuffixOf buf
    || (containsSub buf "::".data && "]: ".data.isSuffixOf buf)

/-- State of the interactive driving loop of `run_pacman_pty`
(src/pacman.rs 748-844): the partial line buffer, the `raw_mode` flag,
everything written to stdout so far, and the operator answers forwarded to
the child. -/
structure PtyState where
  buffer : List Char
  raw : Bool
  out : List Char
  sent : List (List Char)
  deriving DecidableEq

/-- The state before the first read: empty buffer, `raw_mode = false`
(src/pacman.rs 762-763). -/
def ptyInit : PtyState := ⟨[], false, [], []⟩

/-- The per-character body of the line-filtered branch of `run_pacman_pty`
(src/pacman.rs 793-822).  `inp` is the line the operator types at a prompt;
the `stdin().read_line` of the source is modelled as always succeeding with
that line.  `println!` appends a newline; the installation-confirmation
prompt is preceded by `"\n\n"` (`println!("\n")`). -/
def ptyProcessChar (filter : Bool) (inp : List Char) (st : PtyState)
    (c : Char) : PtyState :=
  if c = '\n' then
    { st with
      out := st.out ++
        (if should_print st.buffer filter then st.buffer ++ ['\n'] else []),
      buffer := [] }
  else if c = '\r' then st
  else
    let buf := st.buffer ++ [c]
    if promptDetected buf then
      { st with
        out := st.out ++
          (if should_print buf filter then
            (if containsSub buf "Proceed with installation".data then
              "\n\n".data else []) ++ buf
          else []),
        buffer := [],
        sent := st.sent ++ [rustTrim inp],
        raw := true }
    else { st with buffer := buf }

/-- One `try_read` chunk of `run_pacman_pty` (src/pacman.rs 784-822): in raw
mode the whole chunk is written verbatim (src/pacman.rs 785-789); otherwise
each character runs through the line-filtered branch. -/
def ptyProcessChunk (filter : Bool) (inp : List Char) (st : PtyState)
    (chunk : List Char) : PtyState :=
  if st.raw then { st with out := st.out ++ chunk }
  else chunk.foldl (ptyProcessChar filter inp) st

/-- A whole driving session of `run_pacman_pty` over a list of read chunks,
starting from the initial line-filtered state. -/
def ptyRun (filter : Bool) (inp : List Char) (chunks : List (List Char)) :
    PtyState :=
  chunks.foldl (ptyProcessChunk filter inp) ptyInit

/-- The per-character body of the two sync driving loops
(src/pacman.rs 357-369 in `calculate_upgrade_stats_with_sync` and
src/pacman.rs 891-901 in `run_pacman_sync`): on `\n` or `\r` the non-empty
buffer is fed to the tracker and the buffer is cleared; any other character
is appended.  The state is the tracker paired with the line buffer. -/
def syncProcessChar : SyncProgress × List Char → Char → SyncProgress × List Char
  | (prog, buf), c =>
    if c = '\n' || c = '\r' then
      (if buf ≠ [] then prog.update_from_line buf else prog, [])
    else (prog, buf ++ [c])

/-- Metadata of one cached database file as `DbCache::is_fresh` reads it:
`none` — `fs::metadata` fails (file missing); `some none` — metadata is
readable but `meta.modified()` fails; `some (some m)` — modification time
`m`, in whole seconds.  `now` is the current time in the same clock. -/
abbrev DbFileMeta := Option (Option Int)

/-- The loop body of `DbCache::is_fresh` for one required database file
(src/pacman.rs 190-207): missing metadata, unreadable modification time, or
failing `modified.elapsed()` (modification time in the future) each yield
`false`; otherwise the age in whole seconds must not exceed
`ttl_minutes * 60`. -/
def fileFresh (now : Int) (ttl_minutes : Nat) (f : DbFileMeta) : Bool :=
  match f with
  | none => false
  | some none => false
  | some (some m) =>
    if m ≤ now then decide ((now - m).toNat ≤ ttl_minutes * 60) else false

/-- `DbCache::is_fresh` (src/pacman.rs 182-210) over the metadata of the
three required files `sync/core.db`, `sync/extra.db`, `sync/multilib.db`. -/
def is_fresh (now : Int) (ttl_minutes : Nat)
    (coreDb extraDb multilibDb : DbFileMeta) : Bool :=
  if ttl_minutes = 0 then false
  else fileFresh now ttl_minutes coreDb && fileFresh now ttl_minutes extraDb
    && fileFresh now ttl_minutes multilibDb

/-- The freshness condition exactly as the claim words it: each file exists,
has a readable modification time, and its age `now - m` (a signed quantity)
is at most `ttl_minutes * 60` seconds. -/
def isFreshClaimed (now : Int) (ttl_minutes : Nat)
    (coreDb extraDb multilibDb : DbFileMeta) : Prop :=
  ttl_minutes ≠ 0 ∧
    ∀ f ∈ [coreDb, extraDb, multilibDb],
      ∃ m : Int, f = some (some m) ∧ now - m ≤ (ttl_minutes : Int) * 60

/-- One entry of the system sync directory as `DbCache::copy_system_dbs`
sees it: file name, extension, and modification time in seconds.  The
entry's own metadata is readable (it was just listed); on the unix targets
this code is written for, `modified()` on readable metadata succeeds. -/
structure SrcEntry where
  name : String
  ext : String
  mtime : Int
  deriving DecidableEq

/-- The loop body of `DbCache::copy_system_dbs` for one directory entry
(src/pacman.rs 222-240): only `.db` files are considered; the copy happens
when the destination is missing or strictly older than the source; after a
copy, `copy_mtime` (src/pacman.rs 125-149) sets the destination's
modification time to the source's.  The cache is a map from file name to
the cached file's modification time (`none` = missing). -/
def copyDbEntry (cache : String → Option Int) (e : SrcEntry) :
    String → Option Int :=
  if e.ext = "db" then
    let shouldCopy := match cache e.name with
      | none => true
      | some d => decide (d < e.mtime)
    if shouldCopy then fun n => if n = e.name then some e.mtime else cache n
    else cache
  else cache

/-- `DbCache::copy_system_dbs` (src/pacman.rs 213-242) over the listing of
the system sync directory. -/
def copy_system_dbs (entries : List SrcEntry) (cache : String → Option Int) :
    String → Option Int :=
  entries.foldl copyDbEntry cache

/-- A concrete cache-directory state used to evaluate the copy decision:
`core.db` is 50 seconds old in the cache, `extra.db` is newer than the
system's copy, everything else is missing. -/
def exampleCache : String → Option Int := fun n =>
  if n = "core.db" then some 50
  else if n = "extra.db" then some 200
  else none

/-- The tail of `calculate_upgrade_stats` (src/pacman.rs 522-526): the net
upgrade size in MiB is forced to zero inside (-0.01, 0.01).  The `f64`
arithmetic is modelled exactly over `ℚ`; the literals `-0.01`/`0.01` stand
for the code's `f64` constants (no double lies strictly between `0.01` and
the `f64` nearest to it, so the branch condition agrees with the real open
interval on every representable value). -/
def normalizeNetMib (net_mib : ℚ) : ℚ :=
  if -0.01 < net_mib && net_mib < 0.01 then 0 else net_mib

-- Helper lemmas about the escape scanner.

/-- A CSI parameter run (no final byte) is consumed without output, and the
first final byte returns the scanner to text mode. -/
theorem stripGo_csi_consume (params : List Char) (fb : Char)
    (rest : List Char) (hp : ∀ c ∈ params, ¬('@' ≤ c ∧ c ≤ '~'))
    (h1 : '@' ≤ fb) (h2 : fb ≤ '~') :
    stripGo .csi (params ++ fb :: rest) = stripGo .text rest := by
  induction params with
  | nil => simp [stripGo, h1, h2]
  | cons c p ih =>
    have hc := hp c (List.mem_cons_self c p)
    simp only [List.cons_append, stripGo, if_neg hc]
    exact ih fun x hx => hp x (List.mem_cons_of_mem _ hx)

/-- An OSC body (no BEL, no ESC) is consumed without output up to a BEL
terminator. -/
theorem stripGo_osc_bel (body rest : List Char)
    (hb : ∀ c ∈ body, c ≠ '\x07' ∧ c ≠ '\x1b') :
    stripGo .osc (body ++ '\x07' :: rest) = stripGo .text rest := by
  induction body with
  | nil => simp [stripGo]
  | cons c b ih =>
    have hc := hb c (List.mem_cons_self c b)
    simp only [List.cons_append, stripGo, if_neg hc.1, if_neg hc.2]
    exact ih fun x hx => hb x (List.mem_cons_of_mem _ hx)

/-- An OSC body (no BEL, no ESC) is consumed without output up to an
`ESC \` string terminator. -/
theorem stripGo_osc_st (body rest : List Char)
    (hb : ∀ c ∈ body, c ≠ '\x07' ∧ c ≠ '\x1b') :
    stripGo .osc (body ++ '\x1b' :: '\\' :: rest) = stripGo .text rest := by
  induction body with
  | nil => simp [stripGo]
  | cons c b ih =>
    have hc := hb c (List.mem_cons_self c b)
    simp only [List.cons_append, stripGo, if_neg hc.1, if_neg hc.2]
    exact ih fun x hx => hb x (List.mem_cons_of_mem _ hx)

/-- Escape-free text passes through the scanner unchanged. -/
theorem stripGo_text_id (l : List Char) (h : ∀ c ∈ l, c ≠ '\x1b') :
    stripGo .text l = l := by
  induction l with
  | nil => rfl
  | cons c r ih =>
    have hc := h c (List.mem_cons_self c r)
    simp only [stripGo, if_neg hc]
    rw [ih fun x hx => h x (List.mem_cons_of_mem _ hx)]

/-- No mode of the scanner ever emits an ESC character. -/
theorem stripGo_no_esc (l : List Char) :
    ∀ mode, '\x1b' ∉ stripGo mode l := by
  induction l with
  | nil => intro mode; cases mode <;> simp [stripGo]
  | cons c r ih =>
    intro mode
    cases mode with
    | text =>
      simp only [stripGo]
      split_ifs with hc
      · exact ih _
      · simp only [List.mem_cons, not_or]
        exact ⟨fun h => hc h.symm, ih _⟩
    | esc => simp only [stripGo]; split_ifs <;> exact ih _
    | csi => simp only [stripGo]; split_ifs <;> exact ih _
    | osc => simp only [stripGo]; split_ifs <;> exact ih _
    | oscEsc =>
      simp only [stripGo]
      split_ifs with h1 h2
      · exact ih _
      · exact ih _
      · simp only [List.mem_cons, not_or]
        exact ⟨fun h => h2 h.symm, ih _⟩

/-- C10: for every input string, the output of `strip_ansi` contains no ESC
character: every ESC begins a consumed sequence (CSI, OSC, two-byte escape,
or a lone trailing ESC) and is never emitted, so downstream width
measurement and progress-line parsing operate on escape-free text. -/
theorem strip_ansi_output_esc_free (s : String) :
    '\x1b' ∉ (strip_ansi s).data :=
  stripGo_no_esc s.data .text

/-- C7: `strip_ansi` removes every CSI sequence (ESC `[` through the first
final byte in `'@'..'~'`), every OSC sequence (ESC `]` through BEL or
ESC `\`), and every lone two-byte escape, emitting nothing for them, while
preserving all other characters; it is total (never panics), an unterminated
sequence being consumed to end of input; in particular
`"\x1b[1;33mhello\x1b[0m"` maps to `"hello"` and the unterminated
`"\x1b[31"` maps to `""`. -/
theorem strip_ansi_removes_sequences :
    (∀ (params : List Char) (fb : Char) (rest : List Char),
        (∀ c ∈ params, ¬('@' ≤ c ∧ c ≤ '~')) → '@' ≤ fb → fb ≤ '~' →
        stripGo .text ('\x1b' :: '[' :: (params ++ fb :: rest))
          = stripGo .text rest)
  ∧ (∀ (body rest : List Char), (∀ c ∈ body, c ≠ '\x07' ∧ c ≠ '\x1b') →
        stripGo .text ('\x1b' :: ']' :: (body ++ '\x07' :: rest))
            = stripGo .text rest
      ∧ stripGo .text ('\x1b' :: ']' :: (body ++ '\x1b' :: '\\' :: rest))
            = stripGo .text rest)
  ∧ (∀ (c : Char) (rest : List Char), c ≠ '[' → c ≠ ']' →
        stripGo .text ('\x1b' :: c :: rest) = stripGo .text rest)
  ∧ (∀ l : List Char, (∀ c ∈ l, c ≠ '\x1b') → stripGo .text l = l)
  ∧ strip_ansi "\x1b[1;33mhello\x1b[0m" = "hello"
  ∧ strip_ansi "\x1b[31" = "" := by
  refine ⟨?_, ?_, ?_, stripGo_text_id, by decide, by decide⟩
  · intro params fb rest hp h1 h2
    simp only [stripGo]
    exact stripGo_csi_consume params fb rest hp h1 h2
  · intro body rest hb
    constructor
    · simp only [stripGo]
      exact stripGo_osc_bel body rest hb
    · simp only [stripGo]
      exact stripGo_osc_st body rest hb
  · intro c rest h1 h2
    simp [stripGo, h1, h2]

/-- C7 witness: the CSI, OSC, two-byte and text-preservation parts of
`strip_ansi_removes_sequences` evaluated at concrete inputs. -/
theorem strip_ansi_removes_sequences_witness :
    stripGo .text ('\x1b' :: '[' :: ("1;3".data ++ 'm' :: "ok".data))
        = stripGo .text "ok".data
  ∧ stripGo .text ('\x1b' :: ']' :: ("0;t".data ++ '\x07' :: "ok".data))
        = stripGo .text "ok".data
  ∧ stripGo .text ('\x1b' :: '(' :: "ok".data) = stripGo .text "ok".data
  ∧ stripGo .text "plain".data = "plain".data :=
  ⟨strip_ansi_removes_sequences.1 "1;3".data 'm' "ok".data (by decide)
      (by decide) (by decide),
   (strip_ansi_removes_sequences.2.1 "0;t".data "ok".data (by decide)).1,
   strip_ansi_removes_sequences.2.2.1 '(' "ok".data (by decide) (by decide),
   strip_ansi_removes_sequences.2.2.2.1 "plain".data (by decide)⟩

/-- C6: a freshly created tracker has all three targets `Syncing(0)`;
`format()` renders the states in the fixed order core, extra, multilib with
`Complete` as a check mark; feeding the sequence `"core 10%"`, `"core 55%"`,
`"core is up to date"`, `"extra 30%"` yields core `Complete`,
extra `Syncing(30)`, multilib `Syncing(0)`, and `format()` returns
`"core ✓ | extra 30% | multilib 0%"`. -/
theorem sync_progress_init_format_scenario :
    SyncProgress.new = ⟨.Syncing 0, .Syncing 0, .Syncing 0⟩
  ∧ (∀ sp : SyncProgress,
      sp.format = "core " ++ SyncProgress.format_state sp.core
        ++ " | extra " ++ SyncProgress.format_state sp.extra
        ++ " | multilib " ++ SyncProgress.format_state sp.multilib)
  ∧ (∀ p : Nat, SyncProgress.format_state (.Syncing p) = toString p ++ "%")
  ∧ SyncProgress.format_state .Complete = "✓"
  ∧ (["core 10%".data, "core 55%".data, "core is up to date".data,
        "extra 30%".data].foldl
        SyncProgress.update_from_line SyncProgress.new
      = ⟨.Complete, .Syncing 30, .Syncing 0⟩)
  ∧ (["core 10%".data, "core 55%".data, "core is up to date".data,
        "extra 30%".data].foldl
        SyncProgress.update_from_line SyncProgress.new).format
      = "core ✓ | extra 30% | multilib 0%" :=
  ⟨rfl, fun _ => rfl, fun _ => rfl, rfl, by decide, by decide⟩

/-- C1: for a line whose escape-stripped, trimmed text does not contain
`"is up to date"` and splits into at least two tokens, with a last token of
the form `<n>%` where `n` parses as an unsigned integer `0..=255`: if the
first token is exactly `core`, `extra` or `multilib`, that target becomes
`Complete` when `n ≥ 100` and `Syncing(n)` otherwise, the other two targets
unchanged; an unknown first token, a `%`-less last token, or an unparsable
percentage leaves all three states unchanged (and never raises an error). -/
theorem update_from_line_percent (sp : SyncProgress) (line : List Char)
    (parts : List (List Char))
    (hno : containsSub (rustTrim (stripGo .text line)) "is up to date".data
      = false)
    (hparts : splitWs (rustTrim (stripGo .text line)) = parts)
    (hlen : 2 ≤ parts.length) :
    (∀ ps v, stripPctSuffix (parts.getLastD []) = some ps →
      parseU8 ps = some v →
        (parts.headD [] = "core".data →
          sp.update_from_line line
            = { sp with core := if 100 ≤ v then .Complete else .Syncing v })
      ∧ (parts.headD [] = "extra".data →
          sp.update_from_line line
            = { sp with extra := if 100 ≤ v then .Complete else .Syncing v })
      ∧ (parts.headD [] = "multilib".data →
          sp.update_from_line line
            = { sp with
                multilib := if 100 ≤ v then .Complete else .Syncing v })
      ∧ (parts.headD [] ≠ "core".data → parts.headD [] ≠ "extra".data →
          parts.headD [] ≠ "multilib".data →
          sp.update_from_line line = sp))
  ∧ (stripPctSuffix (parts.getLastD []) = none →
      sp.update_from_line line = sp)
  ∧ (∀ ps, stripPctSuffix (parts.getLastD []) = some ps →
      parseU8 ps = none → sp.update_from_line line = sp) := by
  refine ⟨fun ps v hsuf hv => ?_, fun hsuf => ?_, fun ps hsuf hv => ?_⟩
  · refine ⟨fun h1 => ?_, fun h1 => ?_, fun h1 => ?_, fun h1 h2 h3 => ?_⟩ <;>
      simp only [SyncProgress.update_from_line, hno, hparts, hsuf, hv,
        Bool.false_eq_true, if_false, if_pos hlen]
    · rw [if_pos h1]
    · rw [if_neg (by rw [h1]; decide), if_pos h1]
    · rw [if_neg (by rw [h1]; decide), if_neg (by rw [h1]; decide),
        if_pos h1]
    · rw [if_neg h1, if_neg h2, if_neg h3]
  · simp only [SyncProgress.update_from_line, hno, hparts, hsuf,
      Bool.false_eq_true, if_false, if_pos hlen]
  · simp only [SyncProgress.update_from_line, hno, hparts, hsuf, hv,
      Bool.false_eq_true, if_false, if_pos hlen]

/-- C1 witness: `update_from_line_percent` evaluated on `"extra 30%"` and on
the unknown-name line `"community 30%"`. -/
theorem update_from_line_percent_witness :
    SyncProgress.new.update_from_line "extra 30%".data
        = ⟨.Syncing 0, .Syncing 30, .Syncing 0⟩
  ∧ SyncProgress.new.update_from_line "community 30%".data
        = SyncProgress.new := by
  constructor
  · have h := ((update_from_line_percent SyncProgress.new "extra 30%".data
      ["extra".data, "30%".data] (by decide) (by decide) (by decide)).1
      "30".data 30 (by decide) (by decide)).2.1 (by decide)
    simpa using h
  · exact ((update_from_line_percent SyncProgress.new "community 30%".data
      ["community".data, "30%".data] (by decide) (by decide) (by decide)).1
      "30".data 30 (by decide) (by decide)).2.2.2
      (by decide) (by decide) (by decide)

/-- C5 counterexample: the line `"corexyz is up to date"` has leading token
`"corexyz"`, which is none of the three known names, yet the tracker marks
`core` as `Complete` (the source matches `starts_with` on the whole trimmed
line, not token equality), so the states do not all stay unchanged. -/
theorem up_to_date_counterexample :
    (splitWs (rustTrim (stripGo .text "corexyz is up to date".data))).headD []
        = "corexyz".data
  ∧ containsSub (rustTrim (stripGo .text "corexyz is up to date".data))
        "is up to date".data = true
  ∧ SyncProgress.new.update_from_line "corexyz is up to date".data
        = ⟨.Complete, .Syncing 0, .Syncing 0⟩
  ∧ SyncProgress.new.update_from_line "corexyz is up to date".data
        ≠ SyncProgress.new := by
  refine ⟨by decide, by decide, by decide, by decide⟩

/-- C5 amended: for every line whose escape-stripped, trimmed text contains
`"is up to date"`, the tracker matches the trimmed text by prefix, trying
`core`, `extra`, `multilib` in that order (case-sensitive), and sets exactly
the first matching target to `Complete`, leaving the other two unchanged; if
the trimmed text starts with none of the three names, all three states are
left unchanged. -/
theorem up_to_date_ordered_update (sp : SyncProgress) (line : List Char)
    (trimmed : List Char)
    (htr : rustTrim (stripGo .text line) = trimmed)
    (hutd : containsSub trimmed "is up to date".data = true) :
    ("core".data.isPrefixOf trimmed = true →
        sp.update_from_line line = { sp with core := .Complete })
  ∧ ("core".data.isPrefixOf trimmed = false →
      "extra".data.isPrefixOf trimmed = true →
        sp.update_from_line line = { sp with extra := .Complete })
  ∧ ("core".data.isPrefixOf trimmed = false →
      "extra".data.isPrefixOf trimmed = false →
      "multilib".data.isPrefixOf trimmed = true →
        sp.update_from_line line = { sp with multilib := .Complete })
  ∧ ("core".data.isPrefixOf trimmed = false →
      "extra".data.isPrefixOf trimmed = false →
      "multilib".data.isPrefixOf trimmed = false →
        sp.update_from_line line = sp) := by
  refine ⟨fun h1 => ?_, fun h1 h2 => ?_, fun h1 h2 h3 => ?_,
    fun h1 h2 h3 => ?_⟩ <;>
    simp [SyncProgress.update_from_line, htr, hutd, h1, *]

/-- C5 witness: `up_to_date_ordered_update` evaluated on
`"extra is up to date"` and on `"testing is up to date"`. -/
theorem up_to_date_ordered_update_witness :
    SyncProgress.new.update_from_line "extra is up to date".data
        = ⟨.Syncing 0, .Complete, .Syncing 0⟩
  ∧ SyncProgress.new.update_from_line "testing is up to date".data
        = SyncProgress.new := by
  constructor
  · have h := (up_to_date_ordered_update SyncProgress.new
      "extra is up to date".data "extra is up to date".data (by decide)
      (by decide)).2.1 (by decide) (by decide)
    simpa using h
  · exact (up_to_date_ordered_update SyncProgress.new
      "testing is up to date".data "testing is up to date".data (by decide)
      (by decide)).2.2.2 (by decide) (by decide) (by decide)

/-- C3: the interactive driver starts with `raw_mode = false`
(`LineFiltered`); appending a character that makes the partial buffer match
a prompt pattern (ends with `"[Y/n] "`, or contains `"::"` and ends with
`"]: "`) sets `raw_mode`; and once `raw_mode` is set it is never cleared
for the rest of the session, every subsequently read chunk being written to
output verbatim — even when those bytes contain another `"[Y/n] "`
substring. -/
theorem pty_raw_mode_monotone (filter : Bool) (inp : List Char) :
    ptyInit.raw = false
  ∧ (∀ (st : PtyState) (c : Char), c ≠ '\n' → c ≠ '\r' →
      promptDetected (st.buffer ++ [c]) = true →
      (ptyProcessChar filter inp st c).raw = true)
  ∧ (∀ (chunks : List (List Char)) (st : PtyState), st.raw = true →
      (chunks.foldl (ptyProcessChunk filter inp) st).raw = true
    ∧ (chunks.foldl (ptyProcessChunk filter inp) st).out
        = st.out ++ chunks.flatten) := by
  refine ⟨rfl, ?_, ?_⟩
  · intro st c h1 h2 hp
    simp [ptyProcessChar, h1, h2, hp]
  · intro chunks
    induction chunks with
    | nil => intro st hraw; simpa using hraw
    | cons ch chs ih =>
      intro st hraw
      have hstep : ptyProcessChunk filter inp st ch
          = { st with out := st.out ++ ch } := by
        simp [ptyProcessChunk, hraw]
      have := ih { st with out := st.out ++ ch } hraw
      simp only [List.foldl_cons, hstep]
      exact ⟨this.1, by simpa [List.append_assoc] using this.2⟩

/-- C3 witness: completing the prompt
`"Proceed with installation? [Y/n] "` sets `raw_mode`, and a raw-mode state
passes a chunk containing another `"[Y/n] "` through verbatim. -/
theorem pty_raw_mode_monotone_witness :
    (ptyProcessChar true "y".data
        ⟨"Proceed with installation? [Y/n]".data, false, [], []⟩ ' ').raw
      = true
  ∧ ([("done [Y/n] tail".data)].foldl (ptyProcessChunk true "y".data)
        ⟨[], true, "pre".data, []⟩).out = "pre".data ++ "done [Y/n] tail".data
  ∧ ([("done [Y/n] tail".data)].foldl (ptyProcessChunk true "y".data)
        ⟨[], true, "pre".data, []⟩).raw = true := by
  refine ⟨?_, ?_, ?_⟩
  · exact (pty_raw_mode_monotone true "y".data).2.1
      ⟨"Proceed with installation? [Y/n]".data, false, [], []⟩ ' '
      (by decide) (by decide) (by decide)
  · have h := ((pty_raw_mode_monotone true "y".data).2.2
      [("done [Y/n] tail".data)] ⟨[], true, "pre".data, []⟩ rfl).2
    simpa using h
  · exact ((pty_raw_mode_monotone true "y".data).2.2
      [("done [Y/n] tail".data)] ⟨[], true, "pre".data, []⟩ rfl).1

/-- C4 counterexample: in the database-sync driving loops
(`calculate_upgrade_stats_with_sync`, `run_pacman_sync`) a `'\r'` is not
ignored: with buffer `"core 30%"` it feeds the line to the tracker and
clears the buffer, changing the state, where the claim requires the
assembler state to be untouched. -/
theorem sync_cr_counterexample :
    syncProcessChar (SyncProgress.new, "core 30%".data) '\r'
        = (⟨.Syncing 30, .Syncing 0, .Syncing 0⟩, [])
  ∧ syncProcessChar (SyncProgress.new, "core 30%".data) '\r'
        ≠ (SyncProgress.new, "core 30%".data) := by
  exact ⟨by decide, by decide⟩

/-- C4 amended: in the interactive upgrade loop the assembler emits the
accumulated (possibly empty) line through the print filter and clears the
buffer on `'\n'`, ignores `'\r'`, and appends any other character unless the
extended buffer matches a prompt pattern; in the two database-sync loops
both `'\n'` and `'\r'` terminate the line, the buffer is fed to the tracker
only when non-empty and is cleared, and every other character is
appended. -/
theorem line_assembler_behavior (filter : Bool) (inp : List Char) :
    (∀ (st : PtyState) (c : Char),
      (c = '\n' → ptyProcessChar filter inp st c
          = { st with
              buffer := [],
              out := st.out ++ (if should_print st.buffer filter then
                st.buffer ++ ['\n'] else []) })
    ∧ (c = '\r' → ptyProcessChar filter inp st c = st)
    ∧ (c ≠ '\n' → c ≠ '\r' → promptDetected (st.buffer ++ [c]) = false →
        ptyProcessChar filter inp st c = { st with buffer := st.buffer ++ [c] }))
  ∧ (∀ (prog : SyncProgress) (buf : List Char) (c : Char),
      (c = '\n' ∨ c = '\r' → syncProcessChar (prog, buf) c
          = ((if buf = [] then prog else prog.update_from_line buf), []))
    ∧ (c ≠ '\n' → c ≠ '\r' →
        syncProcessChar (prog, buf) c = (prog, buf ++ [c]))) := by
  constructor
  · intro st c
    refine ⟨fun h => ?_, fun h => ?_, fun h1 h2 hp => ?_⟩
    · simp [ptyProcessChar, h]
    · simp [ptyProcessChar, h]
    · simp [ptyProcessChar, h1, h2, hp]
  · intro prog buf c
    constructor
    · rintro (h | h) <;> subst h <;>
        · by_cases hb : buf = [] <;> simp [syncProcessChar, hb]
    · intro h1 h2
      simp [syncProcessChar, h1, h2]

/-- C4 witness: `line_assembler_behavior` evaluated at concrete states: a
`'\r'` in the interactive loop is a no-op, an `'x'` is appended in both
loops, and a `'\n'` in the sync loop feeds `"core 30%"` to the tracker. -/
theorem line_assembler_behavior_witness :
    ptyProcessChar true "y".data ⟨"ab".data, false, [], []⟩ '\r'
        = ⟨"ab".data, false, [], []⟩
  ∧ ptyProcessChar true "y".data ⟨"ab".data, false, [], []⟩ 'x'
        = ⟨"abx".data, false, [], []⟩
  ∧ syncProcessChar (SyncProgress.new, "core 30%".data) '\n'
        = (⟨.Syncing 30, .Syncing 0, .Syncing 0⟩, [])
  ∧ syncProcessChar (SyncProgress.new, "ab".data) 'x'
        = (SyncProgress.new, "abx".data) := by
  refine ⟨?_, ?_, ?_, ?_⟩
  · exact ((line_assembler_behavior true "y".data).1
      ⟨"ab".data, false, [], []⟩ '\r').2.1 rfl
  · have h := ((line_assembler_behavior true "y".data).1
      ⟨"ab".data, false, [], []⟩ 'x').2.2 (by decide) (by decide) (by decide)
    simpa using h
  · have h := ((line_assembler_behavior true "y".data).2
      SyncProgress.new "core 30%".data '\n').1 (Or.inl rfl)
    rw [h]; decide
  · have h := ((line_assembler_behavior true "y".data).2
      SyncProgress.new "ab".data 'x').2 (by decide) (by decide)
    simpa using h

/-- One required database file is accepted by `is_fresh` exactly when its
modification time is readable, not in the future, and at most
`ttl_minutes * 60` seconds old. -/
theorem fileFresh_iff (now : Int) (ttl : Nat) (f : DbFileMeta) :
    fileFresh now ttl f = true ↔
      ∃ t : Int, f = some (some t) ∧ t ≤ now ∧ now - t ≤ (ttl : Int) * 60 := by
  rcases f with _ | f
  · simp [fileFresh]
  · rcases f with _ | t
    · simp [fileFresh]
    · simp only [fileFresh]
      split_ifs with hle
      · simp only [decide_eq_true_eq, Int.toNat_le, Option.some.injEq]
        constructor
        · intro h
          exact ⟨t, rfl, hle, by exact_mod_cast h⟩
        · rintro ⟨t', ht', _, h⟩
          obtain rfl : t' = t := by exact_mod_cast ht'.symm
          exact_mod_cast h
      · simp only [Bool.false_eq_true, false_iff, not_exists]
        rintro t' ⟨ht', hle', _⟩
        obtain rfl : t' = t := by
          simpa using ht'.symm
        exact hle hle'

/-- C2 counterexample: with `now = 0`, TTL one minute and all three cached
files carrying a modification time 5 seconds in the future, each file
exists, has a readable modification time, and its age `0 - 5 = -5` seconds
is not greater than `60` — so the claimed condition holds — yet
`modified.elapsed()` fails on a future timestamp and `is_fresh` returns
`false`. -/
theorem is_fresh_counterexample :
    isFreshClaimed 0 1 (some (some 5)) (some (some 5)) (some (some 5))
  ∧ is_fresh 0 1 (some (some 5)) (some (some 5)) (some (some 5)) = false := by
  constructor
  · refine ⟨by decide, ?_⟩
    intro f hf
    simp only [List.mem_cons, List.not_mem_nil, or_false] at hf
    rcases hf with rfl | rfl | rfl <;> exact ⟨5, rfl, by norm_num⟩
  · decide

/-- C2 amended: `is_fresh(ttl_minutes)` is `false` whenever
`ttl_minutes = 0`; for positive TTL it is `true` exactly when each of the
three files `sync/core.db`, `sync/extra.db`, `sync/multilib.db` exists, has
a readable modification time that is not in the future (so
`modified.elapsed()` succeeds), and its age is at most `ttl_minutes * 60`
seconds; a missing file, an unreadable or future modification time, or an
age above the bound for any one file makes the result `false`. -/
theorem is_fresh_complete_iff (now : Int) (ttl : Nat)
    (coreDb extraDb multilibDb : DbFileMeta) :
    is_fresh now ttl coreDb extraDb multilibDb = true ↔
      ttl ≠ 0 ∧ ∀ f ∈ [coreDb, extraDb, multilibDb],
        ∃ t : Int, f = some (some t) ∧ t ≤ now ∧
          now - t ≤ (ttl : Int) * 60 := by
  unfold is_fresh
  split_ifs with h0
  · simp [h0]
  · simp only [Bool.and_eq_true, fileFresh_iff, List.forall_mem_cons]
    constructor
    · rintro ⟨⟨hc, he⟩, hm⟩
      exact ⟨h0, hc, he, hm, by simp⟩
    · rintro ⟨_, hc, he, hm, _⟩
      exact ⟨⟨hc, he⟩, hm⟩

/-- C2 witness: `is_fresh_complete_iff` evaluated at `now = 1000`, TTL one
minute, all three files 50 seconds old, concluding `is_fresh = true`; and
the zero-TTL direction at the same file state. -/
theorem is_fresh_complete_iff_witness :
    is_fresh 1000 1 (some (some 950)) (some (some 950)) (some (some 950))
        = true
  ∧ is_fresh 1000 0 (some (some 950)) (some (some 950)) (some (some 950))
        = false := by
  constructor
  · refine (is_fresh_complete_iff 1000 1 (some (some 950)) (some (some 950))
      (some (some 950))).mpr ⟨by decide, ?_⟩
    intro f hf
    simp only [List.mem_cons, List.not_mem_nil, or_false] at hf
    rcases hf with rfl | rfl | rfl <;> exact ⟨950, rfl, by norm_num⟩
  · rw [← Bool.not_eq_true]
    intro h
    exact absurd ((is_fresh_complete_iff 1000 0 (some (some 950))
      (some (some 950)) (some (some 950))).mp h).1 (by decide)

/-- C9: the net upgrade size in MiB is replaced by exactly `0` whenever it
lies in the open interval `(-0.01, 0.01)` and is left unchanged whenever it
lies outside that interval (the `f64` arithmetic modelled exactly over the
rationals). -/
theorem normalize_net_mib_spec (x : ℚ) :
    (-0.01 < x → x < 0.01 → normalizeNetMib x = 0)
  ∧ (x ≤ -0.01 ∨ 0.01 ≤ x → normalizeNetMib x = x) := by
  constructor
  · intro h1 h2
    simp [normalizeNetMib, h1, h2]
  · rintro (h | h) <;> rw [normalizeNetMib, if_neg] <;>
      simp only [Bool.and_eq_true, decide_eq_true_eq, not_and, not_lt]
    · intro hc
      exact absurd (lt_of_lt_of_le hc h) (by norm_num)
    · intro _
      exact h

/-- C9 witness: `normalize_net_mib_spec` evaluated at `1/200` (inside the
interval, normalized to `0`) and at `5` (outside, unchanged). -/
theorem normalize_net_mib_spec_witness :
    normalizeNetMib (1/200) = 0 ∧ normalizeNetMib 5 = 5 :=
  ⟨(normalize_net_mib_spec (1/200)).1 (by norm_num) (by norm_num),
   (normalize_net_mib_spec 5).2 (Or.inr (by norm_num))⟩

/-- A copy step leaves every file other than the entry's own name alone. -/
theorem copyDbEntry_other (cache : String → Option Int) (a : SrcEntry)
    (n : String) (h : a.ext = "db" → a.name ≠ n) :
    copyDbEntry cache a n = cache n := by
  by_cases hdb : a.ext = "db"
  · have hne : ¬ n = a.name := fun hh => h hdb hh.symm
    rcases hc : cache a.name with _ | d <;>
      simp [copyDbEntry, hdb, hc, hne, ite_apply]
  · simp [copyDbEntry, hdb]

/-- A missing destination is copied, receiving the source's mtime. -/
theorem copyDbEntry_self_none (cache : String → Option Int) (a : SrcEntry)
    (hdb : a.ext = "db") (hc : cache a.name = none) :
    copyDbEntry cache a a.name = some a.mtime := by
  simp [copyDbEntry, hdb, hc]

/-- A strictly older destination is overwritten with the source's mtime. -/
theorem copyDbEntry_self_lt (cache : String → Option Int) (a : SrcEntry)
    (d : Int) (hdb : a.ext = "db") (hc : cache a.name = some d)
    (hlt : d < a.mtime) : copyDbEntry cache a a.name = some a.mtime := by
  simp [copyDbEntry, hdb, hc, hlt]

/-- A destination at least as new as the source is not copied. -/
theorem copyDbEntry_self_ge (cache : String → Option Int) (a : SrcEntry)
    (d : Int) (hdb : a.ext = "db") (hc : cache a.name = some d)
    (hge : ¬ d < a.mtime) : copyDbEntry cache a a.name = cache a.name := by
  simp [copyDbEntry, hdb, hc, hge]

/-- The copy loop leaves a name untouched if no `.db` entry carries it. -/
theorem copy_foldl_untouched (entries : List SrcEntry) :
    ∀ (cache : String → Option Int) (n : String),
      (∀ e ∈ entries, e.ext = "db" → e.name ≠ n) →
      copy_system_dbs entries cache n = cache n := by
  induction entries with
  | nil => intro cache n _; rfl
  | cons a rest ih =>
    intro cache n h
    have hstep := copyDbEntry_other cache a n
      (fun hdb => h a (List.mem_cons_self a rest) hdb)
    show copy_system_dbs rest (copyDbEntry cache a) n = cache n
    rw [ih (copyDbEntry cache a) n
      (fun e he hdb => h e (List.mem_cons_of_mem _ he) hdb), hstep]

/-- The copy loop's effect on the name of any listed `.db` entry, given
that the `.db` entries carry distinct names: copied (with the source's
mtime) exactly when missing or strictly older, untouched otherwise. -/
theorem copy_foldl_mem (entries : List SrcEntry) :
    ∀ (cache : String → Option Int) (e : SrcEntry), e ∈ entries →
      e.ext = "db" →
      ((entries.filter fun x => x.ext = "db").map SrcEntry.name).Nodup →
      ((cache e.name = none ∨ ∃ d, cache e.name = some d ∧ d < e.mtime) →
         copy_system_dbs entries cache e.name = some e.mtime)
    ∧ (∀ d, cache e.name = some d → ¬ d < e.mtime →
         copy_system_dbs entries cache e.name = cache e.name) := by
  induction entries with
  | nil => intro cache e he; cases he
  | cons a rest ih =>
    intro cache e he hdb hnd
    rcases List.mem_cons.mp he with rfl | hrest
    · rw [List.filter_cons_of_pos (by simp [hdb])] at hnd
      simp only [List.map_cons, List.nodup_cons] at hnd
      obtain ⟨hnot, _⟩ := hnd
      have hrest_ne : ∀ x ∈ rest, x.ext = "db" → x.name ≠ e.name := by
        intro x hx hxdb hxeq
        exact hnot (hxeq ▸ List.mem_map_of_mem SrcEntry.name
          (List.mem_filter.mpr ⟨hx, by simp [hxdb]⟩))
      have hres : copy_system_dbs (e :: rest) cache e.name
          = copyDbEntry cache e e.name := by
        show copy_system_dbs rest (copyDbEntry cache e) e.name = _
        exact copy_foldl_untouched rest (copyDbEntry cache e) e.name hrest_ne
      constructor
      · rintro (hc | ⟨d, hc, hlt⟩)
        · rw [hres]; exact copyDbEntry_self_none cache e hdb hc
        · rw [hres]; exact copyDbEntry_self_lt cache e d hdb hc hlt
      · intro d hc hge
        rw [hres]; exact copyDbEntry_self_ge cache e d hdb hc hge
    · have hndrest :
          ((rest.filter fun x => x.ext = "db").map SrcEntry.name).Nodup := by
        by_cases hadb : a.ext = "db"
        · rw [List.filter_cons_of_pos (by simp [hadb])] at hnd
          exact (List.nodup_cons.mp (by simpa using hnd)).2
        · rwa [List.filter_cons_of_neg (by simp [hadb])] at hnd
      have hane : a.ext = "db" → a.name ≠ e.name := by
        intro hadb heq
        rw [List.filter_cons_of_pos (by simp [hadb])] at hnd
        simp only [List.map_cons, List.nodup_cons] at hnd
        exact hnd.1 (heq ▸ List.mem_map_of_mem SrcEntry.name
          (List.mem_filter.mpr ⟨hrest, by simp [hdb]⟩))
      have hc' : copyDbEntry cache a e.name = cache e.name :=
        copyDbEntry_other cache a e.name hane
      have ih' := ih (copyDbEntry cache a) e hrest hdb hndrest
      rw [hc'] at ih'
      constructor
      · intro hcond
        show copy_system_dbs rest (copyDbEntry cache a) e.name = some e.mtime
        exact ih'.1 hcond
      · intro d hc hge
        show copy_system_dbs rest (copyDbEntry cache a) e.name = cache e.name
        exact ih'.2 d hc hge

/-- C8: `copy_system_dbs` copies a `.db` file from the system sync listing
into the cache only when the cache's copy is missing or strictly older (by
modification time) than the system's, and after such a copy the cached
file's modification time equals the source's modification time (not the
copy time); a destination at least as new is untouched, as is every name no
listed `.db` entry carries. -/
theorem copy_system_dbs_spec (entries : List SrcEntry)
    (cache : String → Option Int)
    (hnd : ((entries.filter fun x => x.ext = "db").map SrcEntry.name).Nodup) :
    (∀ e ∈ entries, e.ext = "db" →
      ((cache e.name = none ∨ ∃ d, cache e.name = some d ∧ d < e.mtime) →
         copy_system_dbs entries cache e.name = some e.mtime)
    ∧ (∀ d, cache e.name = some d → ¬ d < e.mtime →
         copy_system_dbs entries cache e.name = cache e.name))
  ∧ (∀ n : String, (∀ e ∈ entries, e.ext = "db" → e.name ≠ n) →
      copy_system_dbs entries cache n = cache n) :=
  ⟨fun e he hdb => copy_foldl_mem entries cache e he hdb hnd,
   fun n h => copy_foldl_untouched entries cache n h⟩

/-- C8 witness: `copy_system_dbs_spec` evaluated on a two-entry listing
over `exampleCache`: the stale `core.db` is refreshed to the source's
mtime, the newer `extra.db` is untouched, and the unrelated name `local`
is untouched. -/
theorem copy_system_dbs_spec_witness :
    copy_system_dbs [⟨"core.db", "db", 100⟩, ⟨"extra.db", "db", 100⟩]
        exampleCache "core.db" = some 100
  ∧ copy_system_dbs [⟨"core.db", "db", 100⟩, ⟨"extra.db", "db", 100⟩]
        exampleCache "extra.db" = some 200
  ∧ copy_system_dbs [⟨"core.db", "db", 100⟩, ⟨"extra.db", "db", 100⟩]
        exampleCache "local" = none := by
  refine ⟨?_, ?_, ?_⟩
  · exact ((copy_system_dbs_spec
      [⟨"core.db", "db", 100⟩, ⟨"extra.db", "db", 100⟩] exampleCache
      (by decide)).1 ⟨"core.db", "db", 100⟩ (by decide) (by decide)).1
      (Or.inr ⟨50, by decide, by decide⟩)
  · have h := ((copy_system_dbs_spec
      [⟨"core.db", "db", 100⟩, ⟨"extra.db", "db", 100⟩] exampleCache
      (by decide)).1 ⟨"extra.db", "db", 100⟩ (by decide) (by decide)).2
      200 (by decide) (by decide)
    exact h.trans (by decide)
  · have h := (copy_system_dbs_spec
      [⟨"core.db", "db", 100⟩, ⟨"extra.db", "db", 100⟩] exampleCache
      (by decide)).2 "local" (by decide)
    exact h.trans (by decide)
